import Mathlib

/-!
Verification development for the resource-discovery and import-block
generation pipeline of the Grafana Terraform provider's generation tool
(`pkg/generate/generate.go`).

Strings are modelled as Lean `String`/`List Char` (Go iterates runes for
the operations used here; all identifiers involved are ASCII).  External
effects (filesystem writes, the `terraform` subprocess, the remote API
behind each lister) are modelled as data: each resource descriptor carries
the outcome its lister would produce, and the pipeline's observable
behaviour is returned as a `GenOutcome` record (which listers were
invoked, what was written, whether the external tool ran, which error
surfaced).  Goroutine scheduling is modelled by an explicit `arrival`
list: the order in which the enumeration tasks' results are received on
the result channel, constrained in theorems to be a permutation of the
filtered catalog.
-/

deriving instance DecidableEq for Except

namespace GrafanaGen

/-- Go regexp `[^a-zA-Z0-9_-]` complement: characters the regexp
`allowedTerraformChars` (generate.go line 21) leaves unchanged. -/
def isAllowedTerraformChar (c : Char) : Bool :=
  decide (('a' ≤ c ∧ c ≤ 'z') ∨ ('A' ≤ c ∧ c ≤ 'Z') ∨ ('0' ≤ c ∧ c ≤ '9') ∨ c = '_' ∨ c = '-')

/-- `allowedTerraformChars.ReplaceAllString(id, "_")` (generate.go line 139):
every character outside `[a-zA-Z0-9_-]` is replaced by `_`. -/
def sanitizeID (id : String) : String :=
  ⟨id.data.map (fun c => if isAllowedTerraformChar c then c else '_')⟩

/-- `strings.ReplaceAll(provider, "-", "_")` (generate.go line 141). -/
def underscoreProvider (provider : String) : String :=
  ⟨provider.data.map (fun c => if c == '-' then '_' else c)⟩

/-!
Embedding of Go `path/filepath.Match` (unix build), which implements
shell-style glob matching and reports `ErrBadPattern` on malformed
patterns.  `filterResources` and `filterResourceByName` call it.
The embedding follows Go `src/path/filepath/match.go` function by
function; `Except Unit Bool` stands for `(bool, error)` with
`.error ()` playing the role of `ErrBadPattern`.
-/

/-- The leading-star stripping at the top of Go `scanChunk`:
consumes the leading `*`s and reports whether there was at least one. -/
def dropStars : List Char → Bool × List Char
  | '*' :: rest => (true, (dropStars rest).2)
  | p => (false, p)

/-- The scanning loop of Go `scanChunk`: splits the pattern into the next
non-star chunk and the remaining pattern.  A `*` inside a `[...]` range
does not end the chunk; a `\` escapes the following character. -/
def scanChunkLoop : List Char → Bool → List Char × List Char
  | [], _ => ([], [])
  | '\\' :: rest, inrange =>
    match rest with
    | [] => (['\\'], [])
    | c2 :: rest2 =>
      let p := scanChunkLoop rest2 inrange
      ('\\' :: c2 :: p.1, p.2)
  | '[' :: rest, _ =>
    let p := scanChunkLoop rest true
    ('[' :: p.1, p.2)
  | ']' :: rest, _ =>
    let p := scanChunkLoop rest false
    (']' :: p.1, p.2)
  | '*' :: rest, inrange =>
    if inrange then
      let p := scanChunkLoop rest true
      ('*' :: p.1, p.2)
    else
      ([], '*' :: rest)
  | c :: rest, inrange =>
    let p := scanChunkLoop rest inrange
    (c :: p.1, p.2)

/-- Go `scanChunk`: `(star, chunk, rest)`. -/
def scanChunk (pattern : List Char) : Bool × List Char × List Char :=
  let sp := dropStars pattern
  let p := scanChunkLoop sp.2 false
  (sp.1, p.1, p.2)

/-- Go `getEsc`: reads one (possibly escaped) character of a character
class.  Errors if the chunk is empty, starts with `-` or `]`, ends right
after a `\`, or leaves nothing after the character (a class must still be
closed by `]`). -/
def getEsc : List Char → Option (Char × List Char)
  | [] => none
  | c :: rest =>
    if c == '-' || c == ']' then none
    else if c == '\\' then
      match rest with
      | [] => none
      | r2 :: rest2 => if rest2.isEmpty then none else some (r2, rest2)
    else if rest.isEmpty then none else some (c, rest)

/-!
The three recursive functions of Go `Match` (the range-parsing loop of
`matchChunk`, `matchChunk` itself, and the outer `Match` loop) recurse on
values produced by helper calls, not on structural subterms, so they are
defined here by structural recursion on an explicit fuel argument.  Each
fuelled function is given fuel strictly greater than the length of the
list it consumes, every recursive call strictly shrinks that list, and
fuel-irrelevance lemmas (`..._mono`) plus unfolding theorems (`..._eq`)
below show the wrappers satisfy exactly the source's recursion equations,
so the fuel never runs out on the wrappers' own calls.
-/

/-- The range-parsing loop inside the `[` case of Go `matchChunk`:
given the rune `r` being matched and the chunk just after `[` (and any
`^`), consumes `lo-hi` ranges until the closing `]` (which requires at
least one range), accumulating in `m` whether some range contains `r`.
`none` plays the role of `ErrBadPattern`. -/
def parseClassF : Nat → Char → List Char → Bool → Nat → Option (Bool × List Char)
  | 0, _, _, _, _ => none
  | fuel + 1, r, chunk, m, nrange =>
    if chunk.head? = some ']' ∧ 0 < nrange then
      some (m, chunk.tail)
    else
      match getEsc chunk with
      | none => none
      | some (lo, chunk1) =>
        match chunk1 with
        | [] => parseClassF fuel r [] (m || decide (lo ≤ r ∧ r ≤ lo)) (nrange + 1)
        | c :: chunk2 =>
          if c == '-' then
            match getEsc chunk2 with
            | none => none
            | some (hi, chunk3) =>
              parseClassF fuel r chunk3 (m || decide (lo ≤ r ∧ r ≤ hi)) (nrange + 1)
          else
            parseClassF fuel r (c :: chunk2) (m || decide (lo ≤ r ∧ r ≤ lo)) (nrange + 1)

/-- The range-parsing loop with its canonical fuel. -/
def parseClass (r : Char) (chunk : List Char) (m : Bool) (nrange : Nat) :
    Option (Bool × List Char) :=
  parseClassF (chunk.length + 1) r chunk m nrange

/-- The result of Go `matchChunk`: `ErrBadPattern`, a failed match (after
syntax-checking the rest of the chunk), or a successful match returning
the remainder of the name. -/
inductive MatchRes where
  | bad : MatchRes
  | failed : MatchRes
  | matched : List Char → MatchRes
deriving DecidableEq, Repr

/-- The optional leading `^` of a character class in Go `matchChunk`:
`(negated, remaining chunk)`. -/
def classNegation : List Char → Bool × List Char
  | '^' :: rest => (true, rest)
  | l => (false, l)

/-- Go `matchChunk` (fuelled): checks whether the chunk matches the
beginning of `s`; once the match has failed it keeps scanning the chunk
for syntax errors without consuming `s`.  `Char.ofNat 0` is Go `rune(0)`,
the placeholder rune used once the match has failed. -/
def matchChunkF : Nat → List Char → List Char → Bool → MatchRes
  | 0, _, _, _ => .bad
  | fuel + 1, chunk, s, failed0 =>
    match chunk with
    | [] => if failed0 then .failed else .matched s
    | c :: chunkRest =>
      -- Go: `failed := failed0 || len(s) == 0`, written out in full below
      if c == '[' then
        match parseClass (if failed0 || s.isEmpty then Char.ofNat 0 else s.headD (Char.ofNat 0))
            (classNegation chunkRest).2 false 0 with
        | none => .bad
        | some (m, chunk2) =>
          matchChunkF fuel chunk2 (if failed0 || s.isEmpty then s else s.tail)
            ((failed0 || s.isEmpty) || (m == (classNegation chunkRest).1))
      else if c == '?' then
        if failed0 || s.isEmpty then matchChunkF fuel chunkRest s (failed0 || s.isEmpty)
        else matchChunkF fuel chunkRest s.tail
          ((failed0 || s.isEmpty) || (s.headD (Char.ofNat 0) == '/'))
      else if c == '\\' then
        match chunkRest with
        | [] => .bad
        | c2 :: chunkRest2 =>
          if failed0 || s.isEmpty then matchChunkF fuel chunkRest2 s (failed0 || s.isEmpty)
          else matchChunkF fuel chunkRest2 s.tail
            ((failed0 || s.isEmpty) || !(c2 == s.headD (Char.ofNat 0)))
      else
        if failed0 || s.isEmpty then matchChunkF fuel chunkRest s (failed0 || s.isEmpty)
        else matchChunkF fuel chunkRest s.tail
          ((failed0 || s.isEmpty) || !(c == s.headD (Char.ofNat 0)))

/-- Go `matchChunk`'s loop state with its canonical fuel. -/
def matchChunkAux (chunk s : List Char) (failed0 : Bool) : MatchRes :=
  matchChunkF (chunk.length + 1) chunk s failed0

/-- Go `matchChunk(chunk, s)`: the loop starts with `failed = false`. -/
def matchChunk (chunk s : List Char) : MatchRes :=
  matchChunkAux chunk s false

/-- The `star` skip loop of Go `Match`: tries `matchChunk` at each
position of the name (never skipping past a `/`); `.ok (some t)` means a
position matched leaving `t`, `.ok none` means the loop ran out of
positions, `.error` is `ErrBadPattern`. -/
def starLoop (chunk pat : List Char) : List Char → Except Unit (Option (List Char))
  | [] => .ok none
  | c :: rest =>
    if c == '/' then .ok none
    else
      match matchChunk chunk rest with
      | .matched t =>
        if pat.isEmpty && !t.isEmpty then starLoop chunk pat rest
        else .ok (some t)
      | .bad => .error ()
      | .failed => starLoop chunk pat rest

/-- The final loop of Go `Match` (fuelled): before returning a mismatch,
check that the remainder of the pattern is syntactically valid; `true`
means valid. -/
def validateRestF : Nat → List Char → Bool
  | 0, _ => false
  | fuel + 1, pattern =>
    if pattern.isEmpty then true
    else
      match scanChunk pattern with
      | (_, chunk, rest) =>
        match matchChunk chunk [] with
        | .bad => false
        | _ => validateRestF fuel rest

/-- The pattern-validation loop with its canonical fuel. -/
def validateRest (pattern : List Char) : Bool :=
  validateRestF (pattern.length + 1) pattern

/-- Go `filepath.Match` (fuelled): the outer `Pattern` loop. -/
def goMatchF : Nat → List Char → List Char → Except Unit Bool
  | 0, _, _ => .error ()
  | fuel + 1, pattern, name =>
    if pattern.isEmpty then .ok name.isEmpty
    else
      match scanChunk pattern with
      | (star, chunk, rest) =>
        if star && chunk.isEmpty then
          .ok (!(name.contains '/'))
        else
          match matchChunk chunk name with
          | .matched t =>
            if t.isEmpty || !rest.isEmpty then goMatchF fuel rest t
            else if star then
              match starLoop chunk rest name with
              | .error _ => .error ()
              | .ok (some t2) => goMatchF fuel rest t2
              | .ok none => if validateRest rest then .ok false else .error ()
            else if validateRest rest then .ok false else .error ()
          | .bad => .error ()
          | .failed =>
            if star then
              match starLoop chunk rest name with
              | .error _ => .error ()
              | .ok (some t2) => goMatchF fuel rest t2
              | .ok none => if validateRest rest then .ok false else .error ()
            else if validateRest rest then .ok false else .error ()

/-- Go `filepath.Match` with its canonical fuel. -/
def goMatch (pattern name : List Char) : Except Unit Bool :=
  goMatchF (pattern.length + 1) pattern name

/-- Go `filepath.Match` on `String`s. -/
def goMatchS (pattern name : String) : Except Unit Bool :=
  goMatch pattern.data name.data

/-!
### The pipeline model (from `pkg/generate/generate.go`)

A `Resource` is the shallow embedding of `common.Resource` restricted to
what `generateImportBlocks` uses: its `Name` and the behaviour of its
`ListIDsFunc` when invoked against the pass's environment (`none` models
a nil `ListIDsFunc`; `some (.error e)` a lister returning error `e`;
`some (.ok ids)` a lister returning the identifier list `ids`).
-/

/-- One catalog entry (`common.Resource`): its name and the outcome its
lister produces against the pass's environment. -/
structure Resource where
  name : String
  listIDs : Option (Except String (List String))
deriving DecidableEq, Repr

/-- An error carried by a task's `result.err` field (generate.go lines
102-106): either the lister's own error or `ErrBadPattern` from
`filterResourceByName`. -/
inductive TaskErr where
  | listerFailed : String → TaskErr
  | badPattern : TaskErr
deriving DecidableEq, Repr

/-- One emitted `import` block (generate.go lines 157-162): the `to`
traversal `resType.localName`, the `id` string attribute, and the
optional `provider = grafana.<alias>` traversal. -/
structure ImportBlock where
  resType : String
  localName : String
  remoteID : String
  providerAlias : Option String
deriving DecidableEq, Repr

/-- The errors `generateImportBlocks` can return before writing anything:
a malformed inclusion entry (no `.`), `ErrBadPattern` from
`filepath.Match` inside `filterResources`, or the wrapped first failing
task (`failed to generate %s resources: %w`, generate.go line 183). -/
inductive GenError where
  | malformedIncluded : String → GenError
  | badGlobPattern : GenError
  | resourceFailed : String → TaskErr → GenError
deriving DecidableEq, Repr

/-- The `result` struct sent on the channel by each goroutine
(generate.go lines 102-106). -/
structure TaskResult where
  resource : Resource
  blocks : List ImportBlock
  err : Option TaskErr
deriving DecidableEq, Repr

/-- The observable outcome of one `generateImportBlocks` pass:
which resource types' listers were invoked (remote calls), the contents
written to the imports file (if reached), whether the external
`terraform plan -generate-config-out` step ran, and the error returned. -/
structure GenOutcome where
  invokedListers : List String
  importsWritten : Option (List ImportBlock)
  planInvoked : Bool
  genError : Option GenError
deriving DecidableEq, Repr

/-- `strings.Split(included, ".")[0]` (generate.go line 219): the part of
the pattern before the first dot. -/
def typePart (included : String) : String :=
  ⟨included.data.takeWhile (fun c => !(c == '.'))⟩

/-- `strings.Contains(included, ".")` (generate.go line 216). -/
def containsDot (included : String) : Bool :=
  included.data.contains '.'

/-- The first loop of `filterResources` (generate.go lines 215-220):
every entry must contain a `.`; the first entry without one aborts with
the `not in the format <type>.<name>` error; otherwise the type globs
(parts before the first dot) are collected in order. -/
def checkIncludedFormat : List String → Except GenError (List String)
  | [] => .ok []
  | included :: rest =>
    if containsDot included then
      match checkIncludedFormat rest with
      | .error e => .error e
      | .ok ts => .ok (typePart included :: ts)
    else .error (.malformedIncluded included)

/-- The inner loop of `filterResources` (generate.go lines 223-232):
does some allowed type glob match this resource name?  A `Match` error
propagates as `ErrBadPattern`. -/
def anyTypeGlobMatches (name : String) : List String → Except GenError Bool
  | [] => .ok false
  | t :: ts =>
    match goMatchS t name with
    | .error _ => .error .badGlobPattern
    | .ok true => .ok true
    | .ok false => anyTypeGlobMatches name ts

/-- The outer loop of `filterResources` (generate.go lines 222-233):
keep the resources whose name matches some allowed type glob, in catalog
order. -/
def filterLoop (types : List String) : List Resource → Except GenError (List Resource)
  | [] => .ok []
  | r :: rs =>
    match anyTypeGlobMatches r.name types with
    | .error e => .error e
    | .ok true =>
      match filterLoop types rs with
      | .error e => .error e
      | .ok kept => .ok (r :: kept)
    | .ok false => filterLoop types rs

/-- `filterResources` (generate.go lines 208-235). -/
def filterResources (resources : List Resource) (includedResources : List String) :
    Except GenError (List Resource) :=
  if includedResources.isEmpty then .ok resources
  else
    match checkIncludedFormat includedResources with
    | .error e => .error e
    | .ok types => filterLoop types resources

/-- The loop of `filterResourceByName` (generate.go lines 242-250):
first pattern matching `<type>.<name>` wins; a `Match` error aborts. -/
def filterResourceByNameLoop (resourceType resourceName : String) :
    List String → Except Unit Bool
  | [] => .ok false
  | included :: rest =>
    match goMatchS included (resourceType ++ "." ++ resourceName) with
    | .error e => .error e
    | .ok true => .ok true
    | .ok false => filterResourceByNameLoop resourceType resourceName rest

/-- `filterResourceByName` (generate.go lines 237-252). -/
def filterResourceByName (resourceType resourceName : String)
    (includedResources : List String) : Except Unit Bool :=
  if includedResources.isEmpty then .ok true
  else filterResourceByNameLoop resourceType resourceName includedResources

/-- The `cleanedID` computed for one identifier (generate.go lines
139-142): sanitize, then, unless the provider alias is the literal
`"cloud"`, prepend the underscored alias and `_`. -/
def localNameFor (provider id : String) : String :=
  if provider != "cloud" then
    underscoreProvider provider ++ "_" ++ sanitizeID id
  else sanitizeID id

/-- The import block built for one surviving identifier (generate.go
lines 157-162): the `provider` traversal is set only when the alias is
non-empty. -/
def mkImportBlock (provider name id : String) : ImportBlock :=
  { resType := name
    localName := localNameFor provider id
    remoteID := id
    providerAlias := if provider != "" then some provider else none }

/-- Whether one identifier survives the second-stage name filter
(the `matched` test of generate.go lines 144-155). -/
def keepsID (provider name : String) (includedResources : List String) (id : String) : Bool :=
  match filterResourceByName name (localNameFor provider id) includedResources with
  | .ok true => true
  | _ => false

/-- The block-building loop of one goroutine (generate.go lines 137-165):
for each identifier in lister order, compute the cleaned name, apply
`filterResourceByName` (a `Match` error aborts the task), skip
non-matching identifiers, and append a block for the rest. -/
def generateBlocksForIDs (provider name : String) (includedResources : List String) :
    List String → Except Unit (List ImportBlock)
  | [] => .ok []
  | id :: ids =>
    match filterResourceByName name (localNameFor provider id) includedResources with
    | .error e => .error e
    | .ok false => generateBlocksForIDs provider name includedResources ids
    | .ok true =>
      match generateBlocksForIDs provider name includedResources ids with
      | .error e => .error e
      | .ok blocks => .ok (mkImportBlock provider name id :: blocks)

/-- One enumeration goroutine (generate.go lines 110-173): a resource
without a lister is skipped with an empty result; a lister error becomes
the task's `err`; otherwise the block-building loop runs (its `Match`
error also becomes the task's `err`). -/
def runTask (provider : String) (includedResources : List String) (r : Resource) : TaskResult :=
  match r.listIDs with
  | none => { resource := r, blocks := [], err := none }
  | some (.error e) => { resource := r, blocks := [], err := some (.listerFailed e) }
  | some (.ok ids) =>
    match generateBlocksForIDs provider r.name includedResources ids with
    | .error _ => { resource := r, blocks := [], err := some .badPattern }
    | .ok blocks => { resource := r, blocks := blocks, err := none }

/-- The aggregation loop (generate.go lines 181-186): the first result in
channel-arrival order whose `err` is set determines the returned error. -/
def firstTaskError : List TaskResult → Option (String × TaskErr)
  | [] => none
  | t :: ts =>
    match t.err with
    | some e => some (t.resource.name, e)
    | none => firstTaskError ts

/-- Lexicographic order on rune lists.  Go's string `<` compares UTF-8
bytes; byte-lexicographic order on UTF-8 coincides with this
rune-lexicographic order. -/
def charListLt : List Char → List Char → Bool
  | _, [] => false
  | [], _ :: _ => true
  | a :: as, b :: bs =>
    if a < b then true
    else if b < a then false
    else charListLt as bs

/-- Go string `<`. -/
def strLt (a b : String) : Bool :=
  charListLt a.data b.data

/-- One insertion step of the by-name sort (generate.go lines 187-189,
`sort.Slice` with `resource.Name` comparison). -/
def insertResult (t : TaskResult) : List TaskResult → List TaskResult
  | [] => [t]
  | u :: us =>
    if strLt t.resource.name u.resource.name then t :: u :: us
    else u :: insertResult t us

/-- Sorting the collected results by resource name (generate.go lines
187-189).  `sort.Slice` is not stable; the theorems below that depend on
the result order therefore assume the catalog's names are distinct, in
which case every sort by name produces this list. -/
def sortResults : List TaskResult → List TaskResult
  | [] => []
  | t :: ts => insertResult t (sortResults ts)

/-- `generateImportBlocks` (generate.go lines 85-206) as a function of
the filter inputs and of `arrival`, the order in which the goroutines'
results are received on the channel.  All goroutines run to completion
before the channel is drained (`wg.Wait()`), so `arrival` is some
permutation of the filtered catalog — theorems constrain it so.
Every filtered resource with a lister has that lister invoked (the
goroutines are all spawned and none is cancelled); the file write and the
`terraform plan` step are reached only when no task reported an error. -/
def generateImportBlocks (provider : String) (includedResources : List String)
    (resources arrival : List Resource) : GenOutcome :=
  match filterResources resources includedResources with
  | .error e =>
    { invokedListers := [], importsWritten := none, planInvoked := false, genError := some e }
  | .ok filtered =>
    match firstTaskError (arrival.map (runTask provider includedResources)) with
    | some (name, e) =>
      { invokedListers := (filtered.filter (fun r => r.listIDs.isSome)).map (fun r => r.name)
        importsWritten := none
        planInvoked := false
        genError := some (.resourceFailed name e) }
    | none =>
      { invokedListers := (filtered.filter (fun r => r.listIDs.isSome)).map (fun r => r.name)
        importsWritten :=
          some (((sortResults (arrival.map (runTask provider includedResources))).map
            (fun t => t.blocks)).flatten)
        planInvoked := true
        genError := none }

/-- The directory-lifecycle actions of `Generate` (generate.go lines
24-54) that precede the per-environment passes. -/
inductive GenerateStep where
  | removeOutputDir : GenerateStep
  | createOutputDir : GenerateStep
  | writeProviderFile : GenerateStep
  | terraformInit : GenerateStep
deriving DecidableEq, Repr

/-- The prefix of `Generate` (generate.go lines 24-54): output-directory
preparation followed by the provider block and `terraform init`.
`outputDirExists` models `os.Stat` succeeding; `.error ()` is the
`output dir %q already exists. Use the clobber option to delete it`
error, returned before any other work.  (`RemoveAll`/`MkdirAll`
failures are OS-level and outside this model.) -/
def generateSetup (outputDirExists clobber : Bool) : Except Unit (List GenerateStep) :=
  if outputDirExists && clobber then
    .ok [.removeOutputDir, .createOutputDir, .writeProviderFile, .terraformInit]
  else if outputDirExists && !clobber then
    .error ()
  else
    .ok [.createOutputDir, .writeProviderFile, .terraformInit]

/-- The two-type catalog of the spec's scenario: `dashboard` whose lister
returns `["abc"]` and `folder` whose lister returns `["xyz"]`. -/
def demoCatalog : List Resource :=
  [ { name := "dashboard", listIDs := some (.ok ["abc"]) },
    { name := "folder", listIDs := some (.ok ["xyz"]) } ]

/-- A catalog in which both listers fail, used to exhibit the
arrival-order dependence of the surfaced error. -/
def failCatalog : List Resource :=
  [ { name := "alerts", listIDs := some (.error "boom-a") },
    { name := "dashboard", listIDs := some (.error "boom-b") } ]

/-- A catalog in which exactly one of two listers fails. -/
def failOneCatalog : List Resource :=
  [ { name := "alerts", listIDs := some (.ok ["a1"]) },
    { name := "dashboard", listIDs := some (.error "boom") } ]

/-- A one-type catalog whose lister succeeds, used to exhibit that a bad
name-part glob is only detected after the lister ran. -/
def nameGlobCatalog : List Resource :=
  [ { name := "dashboard", listIDs := some (.ok ["abc"]) } ]



theorem getEsc_length : ∀ {c : List Char} {r : Char} {rest : List Char},
    getEsc c = some (r, rest) → rest.length < c.length := by
  intro c r rest h
  match c with
  | [] => simp [getEsc] at h
  | x :: xs =>
    simp only [getEsc] at h
    split at h
    · exact absurd h (by simp)
    · split at h
      · match xs with
        | [] => simp at h
        | y :: ys =>
          simp only at h
          split at h
          · exact absurd h (by simp)
          · obtain ⟨h1, h2⟩ := Option.some.injEq _ _ ▸ h
            cases h
            simp_all
            omega
      · split at h
        · exact absurd h (by simp)
        · cases h
          simp

theorem parseClassF_length : ∀ (fuel : Nat) {r : Char} {chunk : List Char} {m : Bool}
    {nrange : Nat} {m2 : Bool} {rest : List Char},
    parseClassF fuel r chunk m nrange = some (m2, rest) → rest.length < chunk.length := by
  intro fuel
  induction fuel with
  | zero => intro r chunk m nrange m2 rest h; simp [parseClassF] at h
  | succ fuel ih =>
    intro r chunk m nrange m2 rest h
    rw [parseClassF] at h
    split at h
    · rename_i hcl
      injection h with h2
      injection h2 with hm hrest
      subst hrest
      cases chunk with
      | nil => simp at hcl
      | cons a l => simp
    · rename_i hcl
      match hg : getEsc chunk with
      | none => rw [hg] at h; cases h
      | some (lo, chunk1) =>
        rw [hg] at h
        have hl1 := getEsc_length hg
        match chunk1, hl1 with
        | [], hl1 =>
          simp only at h
          have := ih h
          simp at this
        | c :: chunk2, hl1 =>
          simp only at h
          by_cases hc : (c == '-') = true
          · rw [if_pos hc] at h
            match h3 : getEsc chunk2 with
            | none => rw [h3] at h; cases h
            | some (hi, chunk3) =>
              rw [h3] at h
              have hl3 := getEsc_length h3
              have := ih h
              simp only [List.length_cons] at hl1
              omega
          · rw [if_neg hc] at h
            have := ih h
            simp only [List.length_cons] at hl1
            simp only [List.length_cons] at this
            omega

theorem parseClassF_mono : ∀ (fuel : Nat) {r : Char} {chunk : List Char} {m : Bool}
    {nrange : Nat} (fuel2 : Nat), chunk.length < fuel → chunk.length < fuel2 →
    parseClassF fuel r chunk m nrange = parseClassF fuel2 r chunk m nrange := by
  intro fuel
  induction fuel with
  | zero => intro r chunk m nrange fuel2 h1 h2; omega
  | succ fuel ih =>
    intro r chunk m nrange fuel2 h1 h2
    match fuel2 with
    | 0 => omega
    | fuel2 + 1 =>
      rw [parseClassF]
      conv_rhs => rw [parseClassF]
      split
      · rfl
      · match hg : getEsc chunk with
        | none => rfl
        | some (lo, chunk1) =>
          have hl1 := getEsc_length hg
          match chunk1, hl1 with
          | [], hl1 =>
            simp only
            simp only [List.length_nil] at hl1
            exact ih fuel2 (by simp only [List.length_nil]; omega)
              (by simp only [List.length_nil]; omega)
          | c :: chunk2, hl1 =>
            simp only [List.length_cons] at hl1
            simp only
            by_cases hc : (c == '-') = true
            · rw [if_pos hc]
              rw [if_pos hc]
              match h3 : getEsc chunk2 with
              | none => rfl
              | some (hi, chunk3) =>
                have hl3 := getEsc_length h3
                simp only
                exact ih fuel2 (by omega) (by omega)
            · rw [if_neg hc]
              rw [if_neg hc]
              exact ih fuel2 (by simp only [List.length_cons]; omega)
                (by simp only [List.length_cons]; omega)

/-- The wrapper `parseClass` satisfies exactly the recursion of the Go
range-parsing loop (see `matchChunk` in `src/path/filepath/match.go`). -/
theorem parseClass_eq (r : Char) (chunk : List Char) (m : Bool) (nrange : Nat) :
    parseClass r chunk m nrange =
      (if chunk.head? = some ']' ∧ 0 < nrange then
        some (m, chunk.tail)
      else
        match getEsc chunk with
        | none => none
        | some (lo, chunk1) =>
          match chunk1 with
          | [] => parseClass r [] (m || decide (lo ≤ r ∧ r ≤ lo)) (nrange + 1)
          | c :: chunk2 =>
            if c == '-' then
              match getEsc chunk2 with
              | none => none
              | some (hi, chunk3) =>
                parseClass r chunk3 (m || decide (lo ≤ r ∧ r ≤ hi)) (nrange + 1)
            else
              parseClass r (c :: chunk2) (m || decide (lo ≤ r ∧ r ≤ lo)) (nrange + 1)) := by
  show parseClassF (chunk.length + 1) r chunk m nrange = _
  rw [parseClassF]
  split
  · rfl
  · match hg : getEsc chunk with
    | none => rfl
    | some (lo, chunk1) =>
      have hl1 := getEsc_length hg
      match chunk1, hl1 with
      | [], hl1 =>
        simp only
        simp only [List.length_nil] at hl1
        exact parseClassF_mono _ _ (by simp only [List.length_nil]; omega) (by simp)
      | c :: chunk2, hl1 =>
        simp only [List.length_cons] at hl1
        simp only
        by_cases hc : (c == '-') = true
        · rw [if_pos hc]
          rw [if_pos hc]
          match h3 : getEsc chunk2 with
          | none => rfl
          | some (hi, chunk3) =>
            have hl3 := getEsc_length h3
            simp only
            exact parseClassF_mono _ _ (by omega) (by omega)
        · rw [if_neg hc]
          rw [if_neg hc]
          exact parseClassF_mono _ _ (by simp only [List.length_cons]; omega)
            (by simp only [List.length_cons]; omega)

/-! ### Theorems about the glob matcher embedding -/

theorem classNegation_length : ∀ (l : List Char), (classNegation l).2.length ≤ l.length := by
  intro l
  unfold classNegation
  split <;> simp

theorem scanChunkLoop_length : ∀ (l : List Char) (b : Bool),
    (scanChunkLoop l b).1.length + (scanChunkLoop l b).2.length = l.length := by
  intro l b
  induction l, b using scanChunkLoop.induct
  all_goals simp_all [scanChunkLoop]
  all_goals omega

theorem scanChunkLoop_fst_ne : ∀ (l : List Char) (b : Bool),
    l.head? ≠ some '*' → l ≠ [] → (scanChunkLoop l b).1 ≠ [] := by
  intro l b h1 h2
  induction l, b using scanChunkLoop.induct <;> simp_all [scanChunkLoop]

theorem dropStars_length : ∀ (l : List Char), (dropStars l).2.length ≤ l.length := by
  intro l
  induction l using dropStars.induct
  all_goals simp_all [dropStars]
  all_goals omega

theorem dropStars_star_length : ∀ (l : List Char),
    (dropStars l).1 = true → (dropStars l).2.length < l.length := by
  intro l h
  induction l using dropStars.induct with
  | case1 rest ih =>
    have := dropStars_length rest
    simp only [dropStars] at h ⊢
    simp only [List.length_cons]
    omega
  | case2 p hne =>
    rw [dropStars] at h
    · cases h
    · exact hne

theorem dropStars_false : ∀ (l : List Char), (dropStars l).1 = false → (dropStars l).2 = l := by
  intro l h
  induction l using dropStars.induct with
  | case1 rest ih =>
    simp [dropStars] at h
  | case2 p hne =>
    rw [dropStars]
    exact hne

theorem dropStars_head : ∀ (l : List Char), (dropStars l).2.head? ≠ some '*' := by
  intro l
  induction l using dropStars.induct with
  | case1 rest ih =>
    simpa only [dropStars] using ih
  | case2 p hne =>
    rw [dropStars]
    · match p, hne with
      | [], _ => simp
      | c :: rest, hne =>
        simp only [List.head?_cons, ne_eq, Option.some.injEq]
        intro hc
        exact hne rest (by rw [hc])
    · exact hne

theorem scanChunk_rest_lt : ∀ (p : List Char), p ≠ [] → (scanChunk p).2.2.length < p.length := by
  intro p hp
  unfold scanChunk
  have hlen := scanChunkLoop_length (dropStars p).2 false
  have hds := dropStars_length p
  by_cases hstar : (dropStars p).1 = true
  · have := dropStars_star_length p hstar
    simp only
    omega
  · have heq := dropStars_false p (Bool.not_eq_true _ ▸ hstar)
    have hhd := dropStars_head p
    rw [heq] at hlen hhd
    have hne := scanChunkLoop_fst_ne p false hhd hp
    have : 0 < (scanChunkLoop p false).1.length := List.length_pos.mpr hne
    simp only
    rw [heq]
    omega


theorem matchChunkF_nil (fuel : Nat) (s : List Char) (failed0 : Bool) :
    matchChunkF (fuel + 1) [] s failed0 = if failed0 then .failed else .matched s := rfl

theorem matchChunkF_cons (fuel : Nat) (c : Char) (chunkRest s : List Char) (failed0 : Bool) :
    matchChunkF (fuel + 1) (c :: chunkRest) s failed0 =
      (if c == '[' then
        match parseClass (if failed0 || s.isEmpty then Char.ofNat 0 else s.headD (Char.ofNat 0))
            (classNegation chunkRest).2 false 0 with
        | none => .bad
        | some (m, chunk2) =>
          matchChunkF fuel chunk2 (if failed0 || s.isEmpty then s else s.tail)
            ((failed0 || s.isEmpty) || (m == (classNegation chunkRest).1))
      else if c == '?' then
        if failed0 || s.isEmpty then matchChunkF fuel chunkRest s (failed0 || s.isEmpty)
        else matchChunkF fuel chunkRest s.tail
          ((failed0 || s.isEmpty) || (s.headD (Char.ofNat 0) == '/'))
      else if c == '\\' then
        match chunkRest with
        | [] => .bad
        | c2 :: chunkRest2 =>
          if failed0 || s.isEmpty then matchChunkF fuel chunkRest2 s (failed0 || s.isEmpty)
          else matchChunkF fuel chunkRest2 s.tail
            ((failed0 || s.isEmpty) || !(c2 == s.headD (Char.ofNat 0)))
      else
        if failed0 || s.isEmpty then matchChunkF fuel chunkRest s (failed0 || s.isEmpty)
        else matchChunkF fuel chunkRest s.tail
          ((failed0 || s.isEmpty) || !(c == s.headD (Char.ofNat 0)))) := rfl

theorem matchChunkF_mono : ∀ (fuel : Nat) {chunk s : List Char} {failed0 : Bool} (fuel2 : Nat),
    chunk.length < fuel → chunk.length < fuel2 →
    matchChunkF fuel chunk s failed0 = matchChunkF fuel2 chunk s failed0 := by
  intro fuel
  induction fuel with
  | zero => intro chunk s failed0 fuel2 h1 h2; omega
  | succ fuel ih =>
    intro chunk s failed0 fuel2 h1 h2
    match fuel2 with
    | 0 => omega
    | fuel2 + 1 =>
      match chunk, h1, h2 with
      | [], _, _ => rfl
      | c :: chunkRest, h1, h2 =>
        simp only [List.length_cons] at h1 h2
        rw [matchChunkF_cons fuel]
        rw [matchChunkF_cons fuel2]
        by_cases hbr : (c == '[') = true
        · rw [if_pos hbr]
          rw [if_pos hbr]
          have hcl : (classNegation chunkRest).2.length ≤ chunkRest.length :=
            classNegation_length chunkRest
          rcases hp : parseClass
              (if failed0 || s.isEmpty then Char.ofNat 0 else s.headD (Char.ofNat 0))
              (classNegation chunkRest).2 false 0 with _ | ⟨m, chunk2⟩
          · rfl
          · have hl2 : chunk2.length < (classNegation chunkRest).2.length :=
              parseClassF_length _ hp
            simp only
            exact ih _ (by omega) (by omega)
        · rw [if_neg hbr]
          rw [if_neg hbr]
          by_cases hq : (c == '?') = true
          · rw [if_pos hq]
            rw [if_pos hq]
            by_cases hf : (failed0 || s.isEmpty) = true
            · rw [if_pos hf]
              rw [if_pos hf]
              exact ih _ (by omega) (by omega)
            · rw [if_neg hf]
              rw [if_neg hf]
              exact ih _ (by omega) (by omega)
          · rw [if_neg hq]
            rw [if_neg hq]
            by_cases hb : (c == '\\') = true
            · rw [if_pos hb]
              rw [if_pos hb]
              match chunkRest, h1, h2 with
              | [], _, _ => rfl
              | c2 :: chunkRest2, h1, h2 =>
                simp only [List.length_cons] at h1 h2
                simp only
                by_cases hf : (failed0 || s.isEmpty) = true
                · rw [if_pos hf]
                  rw [if_pos hf]
                  exact ih _ (by omega) (by omega)
                · rw [if_neg hf]
                  rw [if_neg hf]
                  exact ih _ (by omega) (by omega)
            · rw [if_neg hb]
              rw [if_neg hb]
              by_cases hf : (failed0 || s.isEmpty) = true
              · rw [if_pos hf]
                rw [if_pos hf]
                exact ih _ (by omega) (by omega)
              · rw [if_neg hf]
                rw [if_neg hf]
                exact ih _ (by omega) (by omega)

/-- The wrapper `matchChunkAux` satisfies exactly the recursion of the
loop of Go `matchChunk` (with the loop's `failed` flag explicit). -/
theorem matchChunkAux_eq (chunk s : List Char) (failed0 : Bool) :
    matchChunkAux chunk s failed0 =
      (match chunk with
      | [] => if failed0 then .failed else .matched s
      | c :: chunkRest =>
        if c == '[' then
          match parseClass
              (if failed0 || s.isEmpty then Char.ofNat 0 else s.headD (Char.ofNat 0))
              (classNegation chunkRest).2 false 0 with
          | none => .bad
          | some (m, chunk2) =>
            matchChunkAux chunk2 (if failed0 || s.isEmpty then s else s.tail)
              ((failed0 || s.isEmpty) || (m == (classNegation chunkRest).1))
        else if c == '?' then
          if failed0 || s.isEmpty then matchChunkAux chunkRest s (failed0 || s.isEmpty)
          else matchChunkAux chunkRest s.tail
            ((failed0 || s.isEmpty) || (s.headD (Char.ofNat 0) == '/'))
        else if c == '\\' then
          match chunkRest with
          | [] => .bad
          | c2 :: chunkRest2 =>
            if failed0 || s.isEmpty then matchChunkAux chunkRest2 s (failed0 || s.isEmpty)
            else matchChunkAux chunkRest2 s.tail
              ((failed0 || s.isEmpty) || !(c2 == s.headD (Char.ofNat 0)))
        else
          if failed0 || s.isEmpty then matchChunkAux chunkRest s (failed0 || s.isEmpty)
          else matchChunkAux chunkRest s.tail
            ((failed0 || s.isEmpty) || !(c == s.headD (Char.ofNat 0)))) := by
  match chunk with
  | [] => rfl
  | c :: chunkRest =>
    show matchChunkF (chunkRest.length + 1 + 1) (c :: chunkRest) s failed0 = _
    rw [matchChunkF_cons]
    simp only
    by_cases hbr : (c == '[') = true
    · rw [if_pos hbr]
      rw [if_pos hbr]
      have hcl : (classNegation chunkRest).2.length ≤ chunkRest.length :=
        classNegation_length chunkRest
      rcases hp : parseClass
          (if failed0 || s.isEmpty then Char.ofNat 0 else s.headD (Char.ofNat 0))
          (classNegation chunkRest).2 false 0 with _ | ⟨m, chunk2⟩
      · rfl
      · have hl2 : chunk2.length < (classNegation chunkRest).2.length :=
          parseClassF_length _ hp
        simp only
        exact matchChunkF_mono _ _ (by omega) (by omega)
    · rw [if_neg hbr]
      rw [if_neg hbr]
      by_cases hq : (c == '?') = true
      · rw [if_pos hq]
        rw [if_pos hq]
        by_cases hf : (failed0 || s.isEmpty) = true
        · rw [if_pos hf]
          rw [if_pos hf]
          exact matchChunkF_mono _ _ (by omega) (by omega)
        · rw [if_neg hf]
          rw [if_neg hf]
          exact matchChunkF_mono _ _ (by omega) (by omega)
      · rw [if_neg hq]
        rw [if_neg hq]
        by_cases hb : (c == '\\') = true
        · rw [if_pos hb]
          rw [if_pos hb]
          match chunkRest with
          | [] => rfl
          | c2 :: chunkRest2 =>
            simp only
            by_cases hf : (failed0 || s.isEmpty) = true
            · rw [if_pos hf]
              rw [if_pos hf]
              exact matchChunkF_mono _ _ (by simp only [List.length_cons]; omega)
                (by omega)
            · rw [if_neg hf]
              rw [if_neg hf]
              exact matchChunkF_mono _ _ (by simp only [List.length_cons]; omega)
                (by omega)
        · rw [if_neg hb]
          rw [if_neg hb]
          by_cases hf : (failed0 || s.isEmpty) = true
          · rw [if_pos hf]
            rw [if_pos hf]
            exact matchChunkF_mono _ _ (by omega) (by omega)
          · rw [if_neg hf]
            rw [if_neg hf]
            exact matchChunkF_mono _ _ (by omega) (by omega)

theorem validateRestF_succ (fuel : Nat) (pattern : List Char) :
    validateRestF (fuel + 1) pattern =
      (if pattern.isEmpty then true
      else
        match scanChunk pattern with
        | (_, chunk, rest) =>
          match matchChunk chunk [] with
          | .bad => false
          | _ => validateRestF fuel rest) := rfl

theorem validateRestF_mono : ∀ (fuel : Nat) {pattern : List Char} (fuel2 : Nat),
    pattern.length < fuel → pattern.length < fuel2 →
    validateRestF fuel pattern = validateRestF fuel2 pattern := by
  intro fuel
  induction fuel with
  | zero => intro pattern fuel2 h1 h2; omega
  | succ fuel ih =>
    intro pattern fuel2 h1 h2
    match fuel2 with
    | 0 => omega
    | fuel2 + 1 =>
      rw [validateRestF_succ fuel]
      rw [validateRestF_succ fuel2]
      by_cases hemp : pattern.isEmpty = true
      · rw [if_pos hemp]
        rw [if_pos hemp]
      · rw [if_neg hemp]
        rw [if_neg hemp]
        have hne : pattern ≠ [] := by
          intro hcon
          rw [hcon] at hemp
          simp at hemp
        have hlt := scanChunk_rest_lt pattern hne
        rcases hsc : scanChunk pattern with ⟨star, chunk, rest⟩
        rw [hsc] at hlt
        simp only at hlt
        simp only
        rcases hmc : matchChunk chunk [] with _ | _ | t
        · rfl
        · simp only
          exact ih _ (by omega) (by omega)
        · simp only
          exact ih _ (by omega) (by omega)

/-- The wrapper `validateRest` satisfies exactly the recursion of the
final (syntax-checking) loop of Go `Match`. -/
theorem validateRest_eq (pattern : List Char) :
    validateRest pattern =
      (if pattern.isEmpty then true
      else
        match scanChunk pattern with
        | (_, chunk, rest) =>
          match matchChunk chunk [] with
          | .bad => false
          | _ => validateRest rest) := by
  show validateRestF (pattern.length + 1) pattern = _
  rw [validateRestF_succ]
  by_cases hemp : pattern.isEmpty = true
  · rw [if_pos hemp]
    rw [if_pos hemp]
  · rw [if_neg hemp]
    rw [if_neg hemp]
    have hne : pattern ≠ [] := by
      intro hcon
      rw [hcon] at hemp
      simp at hemp
    have hlt := scanChunk_rest_lt pattern hne
    rcases hsc : scanChunk pattern with ⟨star, chunk, rest⟩
    rw [hsc] at hlt
    simp only at hlt
    simp only
    rcases hmc : matchChunk chunk [] with _ | _ | t
    · rfl
    · simp only
      exact validateRestF_mono _ _ (by omega) (by omega)
    · simp only
      exact validateRestF_mono _ _ (by omega) (by omega)

theorem goMatchF_succ (fuel : Nat) (pattern name : List Char) :
    goMatchF (fuel + 1) pattern name =
      (if pattern.isEmpty then .ok name.isEmpty
      else
        match scanChunk pattern with
        | (star, chunk, rest) =>
          if star && chunk.isEmpty then
            .ok (!(name.contains '/'))
          else
            match matchChunk chunk name with
            | .matched t =>
              if t.isEmpty || !rest.isEmpty then goMatchF fuel rest t
              else if star then
                match starLoop chunk rest name with
                | .error _ => .error ()
                | .ok (some t2) => goMatchF fuel rest t2
                | .ok none => if validateRest rest then .ok false else .error ()
              else if validateRest rest then .ok false else .error ()
            | .bad => .error ()
            | .failed =>
              if star then
                match starLoop chunk rest name with
                | .error _ => .error ()
                | .ok (some t2) => goMatchF fuel rest t2
                | .ok none => if validateRest rest then .ok false else .error ()
              else if validateRest rest then .ok false else .error ()) := rfl

theorem goMatchF_mono : ∀ (fuel : Nat) {pattern name : List Char} (fuel2 : Nat),
    pattern.length < fuel → pattern.length < fuel2 →
    goMatchF fuel pattern name = goMatchF fuel2 pattern name := by
  intro fuel
  induction fuel with
  | zero => intro pattern name fuel2 h1 h2; omega
  | succ fuel ih =>
    intro pattern name fuel2 h1 h2
    match fuel2 with
    | 0 => omega
    | fuel2 + 1 =>
      rw [goMatchF_succ fuel]
      rw [goMatchF_succ fuel2]
      by_cases hemp : pattern.isEmpty = true
      · rw [if_pos hemp]
        rw [if_pos hemp]
      · rw [if_neg hemp]
        rw [if_neg hemp]
        have hne : pattern ≠ [] := by
          intro hcon
          rw [hcon] at hemp
          simp at hemp
        have hlt := scanChunk_rest_lt pattern hne
        rcases hsc : scanChunk pattern with ⟨star, chunk, rest⟩
        rw [hsc] at hlt
        simp only at hlt
        simp only
        by_cases hstar : (star && chunk.isEmpty) = true
        · rw [if_pos hstar]
          rw [if_pos hstar]
        · rw [if_neg hstar]
          rw [if_neg hstar]
          rcases hmc : matchChunk chunk name with _ | _ | t
          · rfl
          · simp only
            by_cases hst : star = true
            · rw [if_pos hst]
              rw [if_pos hst]
              rcases hsl : starLoop chunk rest name with _ | t2
              · rfl
              · rcases t2 with _ | t2
                · rfl
                · simp only
                  exact ih _ (by omega) (by omega)
            · rw [if_neg hst]
              rw [if_neg hst]
          · simp only
            by_cases ht : (t.isEmpty || !rest.isEmpty) = true
            · rw [if_pos ht]
              rw [if_pos ht]
              exact ih _ (by omega) (by omega)
            · rw [if_neg ht]
              rw [if_neg ht]
              by_cases hst : star = true
              · rw [if_pos hst]
                rw [if_pos hst]
                rcases hsl : starLoop chunk rest name with _ | t2
                · rfl
                · rcases t2 with _ | t2
                  · rfl
                  · simp only
                    exact ih _ (by omega) (by omega)
              · rw [if_neg hst]
                rw [if_neg hst]

/-- The wrapper `goMatch` satisfies exactly the recursion of the outer
`Pattern` loop of Go `filepath.Match`. -/
theorem goMatch_eq (pattern name : List Char) :
    goMatch pattern name =
      (if pattern.isEmpty then .ok name.isEmpty
      else
        match scanChunk pattern with
        | (star, chunk, rest) =>
          if star && chunk.isEmpty then
            .ok (!(name.contains '/'))
          else
            match matchChunk chunk name with
            | .matched t =>
              if t.isEmpty || !rest.isEmpty then goMatch rest t
              else if star then
                match starLoop chunk rest name with
                | .error _ => .error ()
                | .ok (some t2) => goMatch rest t2
                | .ok none => if validateRest rest then .ok false else .error ()
              else if validateRest rest then .ok false else .error ()
            | .bad => .error ()
            | .failed =>
              if star then
                match starLoop chunk rest name with
                | .error _ => .error ()
                | .ok (some t2) => goMatch rest t2
                | .ok none => if validateRest rest then .ok false else .error ()
              else if validateRest rest then .ok false else .error ()) := by
  show goMatchF (pattern.length + 1) pattern name = _
  rw [goMatchF_succ]
  by_cases hemp : pattern.isEmpty = true
  · rw [if_pos hemp]
    rw [if_pos hemp]
  · rw [if_neg hemp]
    rw [if_neg hemp]
    have hne : pattern ≠ [] := by
      intro hcon
      rw [hcon] at hemp
      simp at hemp
    have hlt := scanChunk_rest_lt pattern hne
    rcases hsc : scanChunk pattern with ⟨star, chunk, rest⟩
    rw [hsc] at hlt
    simp only at hlt
    simp only
    by_cases hstar : (star && chunk.isEmpty) = true
    · rw [if_pos hstar]
      rw [if_pos hstar]
    · rw [if_neg hstar]
      rw [if_neg hstar]
      rcases hmc : matchChunk chunk name with _ | _ | t
      · rfl
      · simp only
        by_cases hst : star = true
        · rw [if_pos hst]
          rw [if_pos hst]
          rcases hsl : starLoop chunk rest name with _ | t2
          · rfl
          · rcases t2 with _ | t2
            · rfl
            · simp only
              exact goMatchF_mono _ _ (by omega) (by omega)
        · rw [if_neg hst]
          rw [if_neg hst]
      · simp only
        by_cases ht : (t.isEmpty || !rest.isEmpty) = true
        · rw [if_pos ht]
          rw [if_pos ht]
          exact goMatchF_mono _ _ (by omega) (by omega)
        · rw [if_neg ht]
          rw [if_neg ht]
          by_cases hst : star = true
          · rw [if_pos hst]
            rw [if_pos hst]
            rcases hsl : starLoop chunk rest name with _ | t2
            · rfl
            · rcases t2 with _ | t2
              · rfl
              · simp only
                exact goMatchF_mono _ _ (by omega) (by omega)
          · rw [if_neg hst]
            rw [if_neg hst]

/-! ### The lexicographic order and the by-name sort -/

theorem charListLt_trans : ∀ (a b c : List Char),
    charListLt a b = true → charListLt b c = true → charListLt a c = true := by
  intro a
  induction a with
  | nil =>
    intro b c hab hbc
    match b, hab with
    | y :: ys, hab =>
      match c, hbc with
      | z :: zs, hbc => rfl
      | [], hbc => simp [charListLt] at hbc
  | cons x xs ih =>
    intro b c hab hbc
    match b, hab with
    | [], hab => simp [charListLt] at hab
    | y :: ys, hab =>
      match c, hbc with
      | [], hbc => simp [charListLt] at hbc
      | z :: zs, hbc =>
        simp only [charListLt] at hab hbc ⊢
        by_cases hxy : x < y
        · rw [if_pos hxy] at hab
          by_cases hyz : y < z
          · rw [if_pos (lt_trans hxy hyz)]
          · rw [if_neg hyz] at hbc
            by_cases hzy : z < y
            · rw [if_pos hzy] at hbc
              cases hbc
            · have heq : y = z := le_antisymm (le_of_not_lt hzy) (le_of_not_lt hyz)
              rw [if_pos (heq ▸ hxy)]
        · rw [if_neg hxy] at hab
          by_cases hyx : y < x
          · rw [if_pos hyx] at hab
            cases hab
          · rw [if_neg hyx] at hab
            have heq : x = y := le_antisymm (le_of_not_lt hyx) (le_of_not_lt hxy)
            subst heq
            by_cases hxz : x < z
            · rw [if_pos hxz]
            · rw [if_neg hxz] at hbc ⊢
              by_cases hzx : z < x
              · rw [if_pos hzx] at hbc
                cases hbc
              · rw [if_neg hzx] at hbc ⊢
                exact ih ys zs hab hbc

theorem charListLt_asymm : ∀ (a b : List Char),
    charListLt a b = true → charListLt b a = false := by
  intro a
  induction a with
  | nil =>
    intro b hab
    match b, hab with
    | y :: ys, hab => rfl
  | cons x xs ih =>
    intro b hab
    match b, hab with
    | [], hab => simp [charListLt] at hab
    | y :: ys, hab =>
      simp only [charListLt] at hab ⊢
      by_cases hxy : x < y
      · rw [if_neg (lt_asymm hxy)]
        rw [if_pos hxy]
      · rw [if_neg hxy] at hab
        by_cases hyx : y < x
        · rw [if_pos hyx] at hab
          cases hab
        · rw [if_neg hyx] at hab ⊢
          rw [if_neg hxy]
          exact ih ys hab

theorem charListLt_eq_of_not : ∀ (a b : List Char),
    charListLt a b = false → charListLt b a = false → a = b := by
  intro a
  induction a with
  | nil =>
    intro b hab hba
    match b with
    | [] => rfl
    | y :: ys => simp [charListLt] at hab
  | cons x xs ih =>
    intro b hab hba
    match b with
    | [] => simp [charListLt] at hba
    | y :: ys =>
      simp only [charListLt] at hab hba
      by_cases hxy : x < y
      · rw [if_pos hxy] at hab
        cases hab
      · by_cases hyx : y < x
        · rw [if_pos hyx] at hba
          cases hba
        · rw [if_neg hxy] at hab
          rw [if_neg hyx] at hab
          have heq : x = y := le_antisymm (le_of_not_lt hyx) (le_of_not_lt hxy)
          rw [if_neg hyx] at hba
          rw [if_neg hxy] at hba
          rw [heq, ih ys hab hba]

theorem strLt_asymm {a b : String} (h : strLt a b = true) : strLt b a = false :=
  charListLt_asymm a.data b.data h

theorem strLt_eq_of_not {a b : String} (h1 : strLt a b = false) (h2 : strLt b a = false) :
    a = b :=
  String.ext (charListLt_eq_of_not a.data b.data h1 h2)

theorem insertResult_perm (t : TaskResult) (l : List TaskResult) :
    (insertResult t l).Perm (t :: l) := by
  induction l with
  | nil => simp [insertResult]
  | cons u us ih =>
    simp only [insertResult]
    by_cases h : strLt t.resource.name u.resource.name = true
    · rw [if_pos h]
    · rw [if_neg h]
      exact (ih.cons u).trans (List.Perm.swap t u us)

theorem sortResults_perm (l : List TaskResult) : (sortResults l).Perm l := by
  induction l with
  | nil => simp [sortResults]
  | cons t ts ih =>
    simp only [sortResults]
    exact (insertResult_perm t (sortResults ts)).trans (ih.cons t)

theorem insertResult_sorted (t : TaskResult) (l : List TaskResult)
    (h : l.Pairwise (fun a b => strLt b.resource.name a.resource.name = false)) :
    (insertResult t l).Pairwise
      (fun a b => strLt b.resource.name a.resource.name = false) := by
  induction l with
  | nil => simp [insertResult]
  | cons u us ih =>
    obtain ⟨hu, hus⟩ := List.pairwise_cons.mp h
    simp only [insertResult]
    by_cases hlt : strLt t.resource.name u.resource.name = true
    · rw [if_pos hlt]
      refine List.pairwise_cons.mpr ⟨?_, h⟩
      intro w hw
      rcases List.mem_cons.mp hw with rfl | hwus
      · exact strLt_asymm hlt
      · by_cases hwt : strLt w.resource.name t.resource.name = true
        · exact absurd (hu w hwus)
            (by
              have := charListLt_trans _ _ _ hwt hlt
              simp [strLt] at this ⊢
              exact this)
        · exact Bool.not_eq_true _ ▸ hwt
    · rw [if_neg hlt]
      refine List.pairwise_cons.mpr ⟨?_, ih hus⟩
      intro w hw
      have hw2 := (insertResult_perm t us).mem_iff.mp hw
      rcases List.mem_cons.mp hw2 with rfl | hwus
      · exact Bool.not_eq_true _ ▸ hlt
      · exact hu w hwus

theorem sortResults_sorted (l : List TaskResult) :
    (sortResults l).Pairwise
      (fun a b => strLt b.resource.name a.resource.name = false) := by
  induction l with
  | nil => simp [sortResults]
  | cons t ts ih => exact insertResult_sorted t _ ih

theorem sorted_eq_of_perm (l1 l2 : List TaskResult)
    (hp : l1.Perm l2)
    (hs1 : l1.Pairwise (fun a b => strLt b.resource.name a.resource.name = false))
    (hs2 : l2.Pairwise (fun a b => strLt b.resource.name a.resource.name = false))
    (hn : (l1.map (fun t => t.resource.name)).Nodup) : l1 = l2 := by
  haveI : IsAntisymm TaskResult
      (fun a b => strLt a.resource.name b.resource.name = true) :=
    ⟨fun a b hab hba => absurd hba (by rw [strLt_asymm hab]; simp)⟩
  apply List.eq_of_perm_of_sorted
      (r := fun a b : TaskResult => strLt a.resource.name b.resource.name = true) hp
  · have hne : l1.Pairwise (fun a b : TaskResult =>
        a.resource.name ≠ b.resource.name) := by
      have := (List.pairwise_map (f := fun t : TaskResult => t.resource.name)
        (R := fun a b : String => a ≠ b)).mp hn
      exact this
    have := List.Pairwise.and hs1 hne
    refine this.imp ?_
    rintro a b ⟨h1, h2⟩
    by_cases hab : strLt a.resource.name b.resource.name = true
    · exact hab
    · exact absurd (strLt_eq_of_not (Bool.not_eq_true _ ▸ hab) h1) h2
  · have hn2 : (l2.map (fun t => t.resource.name)).Nodup :=
      ((hp.map (fun t : TaskResult => t.resource.name)).nodup_iff).mp hn
    have hne : l2.Pairwise (fun a b : TaskResult =>
        a.resource.name ≠ b.resource.name) := by
      have := (List.pairwise_map (f := fun t : TaskResult => t.resource.name)
        (R := fun a b : String => a ≠ b)).mp hn2
      exact this
    have := List.Pairwise.and hs2 hne
    refine this.imp ?_
    rintro a b ⟨h1, h2⟩
    by_cases hab : strLt a.resource.name b.resource.name = true
    · exact hab
    · exact absurd (strLt_eq_of_not (Bool.not_eq_true _ ▸ hab) h1) h2

theorem sortResults_eq_of_perm (l1 l2 : List TaskResult)
    (hp : l1.Perm l2) (hn : (l1.map (fun t => t.resource.name)).Nodup) :
    sortResults l1 = sortResults l2 := by
  apply sorted_eq_of_perm
  · exact (sortResults_perm l1).trans (hp.trans (sortResults_perm l2).symm)
  · exact sortResults_sorted l1
  · exact sortResults_sorted l2
  · exact (((sortResults_perm l1).map (fun t => t.resource.name)).nodup_iff).mpr hn

/-! ### Lemmas about the pipeline -/

theorem runTask_resource (provider : String) (inc : List String) (r : Resource) :
    (runTask provider inc r).resource = r := by
  match hl : r.listIDs with
  | none => simp [runTask, hl]
  | some (.error e) => simp [runTask, hl]
  | some (.ok ids) =>
    match hg : generateBlocksForIDs provider r.name inc ids with
    | .error e => simp [runTask, hl, hg]
    | .ok blocks => simp [runTask, hl, hg]

theorem generateBlocksForIDs_ok (provider name : String) (inc : List String) :
    ∀ (ids : List String) (blocks : List ImportBlock),
      generateBlocksForIDs provider name inc ids = .ok blocks →
      blocks = (ids.filter (keepsID provider name inc)).map (mkImportBlock provider name) := by
  intro ids
  induction ids with
  | nil =>
    intro blocks h
    simp only [generateBlocksForIDs] at h
    injection h with h
    subst h
    rfl
  | cons id ids ih =>
    intro blocks h
    simp only [generateBlocksForIDs] at h
    match hf : filterResourceByName name (localNameFor provider id) inc with
    | .error e =>
      rw [hf] at h
      cases h
    | .ok false =>
      rw [hf] at h
      have hkeep : keepsID provider name inc id = false := by
        simp [keepsID, hf]
      rw [List.filter_cons_of_neg (by simp [hkeep])]
      exact ih blocks h
    | .ok true =>
      rw [hf] at h
      match hg : generateBlocksForIDs provider name inc ids with
      | .error e =>
        rw [hg] at h
        cases h
      | .ok blocks2 =>
        rw [hg] at h
        injection h with h
        subst h
        have hkeep : keepsID provider name inc id = true := by
          simp [keepsID, hf]
        rw [List.filter_cons_of_pos (by simp [hkeep])]
        rw [List.map_cons]
        rw [ih blocks2 hg]

theorem runTask_blocks (provider : String) (inc : List String) (r : Resource)
    (ids : List String) (hl : r.listIDs = some (.ok ids))
    (he : (runTask provider inc r).err = none) :
    (runTask provider inc r).blocks =
      (ids.filter (keepsID provider r.name inc)).map (mkImportBlock provider r.name) := by
  match hg : generateBlocksForIDs provider r.name inc ids with
  | .error e =>
    simp [runTask, hl, hg] at he
  | .ok blocks =>
    simp only [runTask, hl, hg]
    exact generateBlocksForIDs_ok provider r.name inc ids blocks hg

theorem runTask_blocks_resType (provider : String) (inc : List String) (r : Resource) :
    ∀ b ∈ (runTask provider inc r).blocks, b.resType = r.name := by
  intro b hb
  match hl : r.listIDs with
  | none => simp [runTask, hl] at hb
  | some (.error e) => simp [runTask, hl] at hb
  | some (.ok ids) =>
    match hg : generateBlocksForIDs provider r.name inc ids with
    | .error e => simp [runTask, hl, hg] at hb
    | .ok blocks =>
      simp only [runTask, hl, hg] at hb
      rw [generateBlocksForIDs_ok provider r.name inc ids blocks hg] at hb
      obtain ⟨id, hid, hmk⟩ := List.mem_map.mp hb
      rw [← hmk]
      rfl

theorem firstTaskError_none (g : Resource → TaskResult) :
    ∀ (l : List Resource), (∀ r ∈ l, (g r).err = none) →
      firstTaskError (l.map g) = none := by
  intro l
  induction l with
  | nil => intro h; rfl
  | cons a t ih =>
    intro h
    simp only [List.map_cons, firstTaskError]
    rw [h a (List.mem_cons_self a t)]
    exact ih (fun r hr => h r (List.mem_cons_of_mem a hr))

theorem firstTaskError_unique (g : Resource → TaskResult) :
    ∀ (l : List Resource) (x : Resource) (e : TaskErr), x ∈ l → (g x).err = some e →
      (∀ y ∈ l, (g y).err.isSome = true → g y = g x) →
      firstTaskError (l.map g) = some ((g x).resource.name, e) := by
  intro l
  induction l with
  | nil => intro x e hx; cases hx
  | cons a t ih =>
    intro x e hx he hall
    simp only [List.map_cons, firstTaskError]
    match ha : (g a).err with
    | some e2 =>
      have : g a = g x := hall a (List.mem_cons_self a t) (by rw [ha]; rfl)
      rw [this] at ha
      rw [he] at ha
      injection ha with ha
      subst ha
      rw [this]
    | none =>
      have hxa : x ≠ a := by
        intro hcon
        subst hcon
        rw [he] at ha
        cases ha
      have hxt : x ∈ t := by
        rcases List.mem_cons.mp hx with hcon | h2
        · exact absurd hcon hxa
        · exact h2
      exact ih x e hxt he (fun y hy => hall y (List.mem_cons_of_mem a hy))

theorem firstTaskError_first (g : Resource → TaskResult) :
    ∀ (l : List Resource) (x : Resource), x ∈ l → (g x).err.isSome = true →
      ∃ pre t post e, l = pre ++ t :: post ∧ (∀ u ∈ pre, (g u).err = none) ∧
        (g t).err = some e ∧
        firstTaskError (l.map g) = some ((g t).resource.name, e) := by
  intro l
  induction l with
  | nil => intro x hx; cases hx
  | cons a t ih =>
    intro x hx hsome
    match ha : (g a).err with
    | some e =>
      refine ⟨[], a, t, e, rfl, by simp, ha, ?_⟩
      simp only [List.map_cons, firstTaskError]
      rw [ha]
    | none =>
      have hxa : x ≠ a := by
        intro hcon
        subst hcon
        rw [ha] at hsome
        cases hsome
      have hxt : x ∈ t := by
        rcases List.mem_cons.mp hx with hcon | h2
        · exact absurd hcon hxa
        · exact h2
      obtain ⟨pre, u, post, e, heq, hpre, hu, hfirst⟩ := ih x hxt hsome
      refine ⟨a :: pre, u, post, e, by rw [heq]; simp, ?_, hu, ?_⟩
      · intro w hw
        rcases List.mem_cons.mp hw with rfl | hw2
        · exact ha
        · exact hpre w hw2
      · simp only [List.map_cons, firstTaskError]
        rw [ha]
        exact hfirst

theorem filterLoop_ok_of_all (types : List String) :
    ∀ (l : List Resource), (∀ r ∈ l, ∃ b, anyTypeGlobMatches r.name types = .ok b) →
      filterLoop types l =
        .ok (l.filter (fun r => decide (anyTypeGlobMatches r.name types = .ok true))) := by
  intro l
  induction l with
  | nil => intro h; rfl
  | cons r rs ih =>
    intro h
    obtain ⟨b, hb⟩ := h r (List.mem_cons_self r rs)
    have hrest := ih (fun u hu => h u (List.mem_cons_of_mem r hu))
    simp only [filterLoop]
    rw [hb]
    match b, hb with
    | true, hb =>
      rw [hrest]
      rw [List.filter_cons_of_pos (by simp [hb])]
    | false, hb =>
      rw [hrest]
      rw [List.filter_cons_of_neg (by simp [hb])]

theorem filterLoop_ok_all (types : List String) :
    ∀ (l f : List Resource), filterLoop types l = .ok f →
      ∀ r ∈ l, ∃ b, anyTypeGlobMatches r.name types = .ok b := by
  intro l
  induction l with
  | nil => intro f h r hr; cases hr
  | cons a t ih =>
    intro f h r hr
    simp only [filterLoop] at h
    match ha : anyTypeGlobMatches a.name types with
    | .error e => rw [ha] at h; cases h
    | .ok true =>
      rw [ha] at h
      rcases List.mem_cons.mp hr with rfl | hr2
      · exact ⟨true, ha⟩
      · match hrec : filterLoop types t with
        | .error e => rw [hrec] at h; cases h
        | .ok kept => exact ih kept hrec r hr2
    | .ok false =>
      rw [ha] at h
      rcases List.mem_cons.mp hr with rfl | hr2
      · exact ⟨false, ha⟩
      · exact ih f h r hr2

theorem filterResources_reverse (resources f : List Resource) (inc : List String)
    (h : filterResources resources inc = .ok f) :
    filterResources resources.reverse inc = .ok f.reverse := by
  simp only [filterResources] at h ⊢
  by_cases hemp : inc.isEmpty = true
  · rw [if_pos hemp] at h ⊢
    injection h with h
    rw [h]
  · rw [if_neg hemp] at h ⊢
    match hc : checkIncludedFormat inc with
    | .error e => rw [hc] at h; cases h
    | .ok types =>
      rw [hc] at h
      simp only at h
      simp only
      have hall := filterLoop_ok_all types resources f h
      have h1 := filterLoop_ok_of_all types resources hall
      have h2 := filterLoop_ok_of_all types resources.reverse
        (fun r hr => hall r (List.mem_reverse.mp hr))
      rw [h1] at h
      injection h with h
      rw [h2, List.filter_reverse, h]

theorem flatten_filter_single :
    ∀ (l : List TaskResult) (N : String) (t : TaskResult),
      (∀ u ∈ l, ∀ b ∈ u.blocks, b.resType = u.resource.name) →
      l.Pairwise (fun a b => a.resource.name ≠ b.resource.name) →
      t ∈ l → t.resource.name = N →
      ((l.map (fun u => u.blocks)).flatten.filter (fun b => b.resType == N)) = t.blocks := by
  intro l
  induction l with
  | nil => intro N t hall hpair ht; cases ht
  | cons u us ih =>
    intro N t hall hpair ht hN
    obtain ⟨hu, hus⟩ := List.pairwise_cons.mp hpair
    simp only [List.map_cons, List.flatten_cons, List.filter_append]
    by_cases hun : u.resource.name = N
    · have htu : t = u := by
        rcases List.mem_cons.mp ht with h2 | ht2
        · exact h2
        · exact absurd (hun.trans hN.symm) (hu t ht2)
      subst htu
      have h1 : t.blocks.filter (fun b => b.resType == N) = t.blocks := by
        rw [List.filter_eq_self]
        intro b hb
        have := hall t (List.mem_cons_self t us) b hb
        simp [this, hun]
      have h2 : ((us.map (fun w => w.blocks)).flatten.filter (fun b => b.resType == N)) = [] := by
        rw [List.filter_eq_nil_iff]
        intro b hb
        obtain ⟨bl, hbl, hbbl⟩ := List.mem_flatten.mp hb
        obtain ⟨w, hw, hwbl⟩ := List.mem_map.mp hbl
        have hbw : b.resType = w.resource.name :=
          hall w (List.mem_cons_of_mem t hw) b (hwbl ▸ hbbl)
        have : w.resource.name ≠ N := fun hcon => (hu w hw) (hun.trans hcon.symm)
        simp [hbw, this]
      rw [h1, h2, List.append_nil]
    · have ht2 : t ∈ us := by
        rcases List.mem_cons.mp ht with rfl | h2
        · exact absurd hN hun
        · exact h2
      have h1 : u.blocks.filter (fun b => b.resType == N) = [] := by
        rw [List.filter_eq_nil_iff]
        intro b hb
        have := hall u (List.mem_cons_self u us) b hb
        simp [this, hun]
      rw [h1, List.nil_append]
      exact ih N t (fun w hw => hall w (List.mem_cons_of_mem u hw)) hus ht2 hN

/-! ### The claims -/

/-- C1 (counterexample): the claim's no-alias scenario is refuted by the
code: with an empty provider alias the import addresses are
`dashboard._abc` and `folder._xyz` — the empty alias is still underscored
and prepended, because generate.go line 140 skips the prepending only for
the literal `"cloud"` — not the claimed `dashboard.abc` and `folder.xyz`. -/
theorem C1_counterexample :
    (generateImportBlocks "" [] demoCatalog demoCatalog).importsWritten =
      some [ { resType := "dashboard", localName := "_abc", remoteID := "abc",
               providerAlias := none },
             { resType := "folder", localName := "_xyz", remoteID := "xyz",
               providerAlias := none } ] ∧
    (generateImportBlocks "" [] demoCatalog demoCatalog).importsWritten ≠
      some [ { resType := "dashboard", localName := "abc", remoteID := "abc",
               providerAlias := none },
             { resType := "folder", localName := "xyz", remoteID := "xyz",
               providerAlias := none } ] :=
  ⟨by decide, by decide⟩

/-- C1 (amended): the sanitized name is prefixed with the underscored
alias plus `_` exactly when the alias is not the literal `"cloud"` — in
particular also when the alias is empty, so the no-alias scenario yields
addresses `dashboard._abc` and `folder._xyz` with ids `"abc"`, `"xyz"`. -/
theorem C1_alias_rule :
    (∀ provider id : String, provider ≠ "cloud" →
        localNameFor provider id = underscoreProvider provider ++ "_" ++ sanitizeID id) ∧
    (∀ id : String, localNameFor "cloud" id = sanitizeID id) ∧
    (generateImportBlocks "" [] demoCatalog demoCatalog).importsWritten =
      some [ { resType := "dashboard", localName := "_abc", remoteID := "abc",
               providerAlias := none },
             { resType := "folder", localName := "_xyz", remoteID := "xyz",
               providerAlias := none } ] := by
  refine ⟨?_, ?_, by decide⟩
  · intro provider id h
    unfold localNameFor
    rw [if_pos (by simpa [bne_iff_ne] using h)]
  · intro id
    rfl

theorem C1_alias_rule_witness :
    ("stack-a" : String) ≠ "cloud" ∧
      localNameFor "stack-a" "abc" = underscoreProvider "stack-a" ++ "_" ++ sanitizeID "abc" :=
  ⟨by decide, C1_alias_rule.1 "stack-a" "abc" (by decide)⟩

/-- C2: sanitization is exactly the pointwise replacement of characters
outside `[A-Za-z0-9_-]` by `_` (the length is preserved and allowed
characters are unchanged), the scenario `"my/weird id" ↦ "my_weird_id"`
holds, and every emitted block's `id` attribute is the original
unsanitized identifier, its local name being the cleaned one. -/
theorem C2_sanitization_and_remote_id :
    (∀ id : String, (sanitizeID id).data.length = id.data.length ∧
      ∀ (i : Nat) (h1 : i < id.data.length) (h2 : i < (sanitizeID id).data.length),
        (isAllowedTerraformChar (id.data.get ⟨i, h1⟩) = true →
          (sanitizeID id).data.get ⟨i, h2⟩ = id.data.get ⟨i, h1⟩) ∧
        (isAllowedTerraformChar (id.data.get ⟨i, h1⟩) = false →
          (sanitizeID id).data.get ⟨i, h2⟩ = '_')) ∧
    sanitizeID "my/weird id" = "my_weird_id" ∧
    (∀ (provider name : String) (inc : List String) (ids : List String)
        (blocks : List ImportBlock),
      generateBlocksForIDs provider name inc ids = .ok blocks →
      ∀ b ∈ blocks, b.remoteID ∈ ids ∧ b.localName = localNameFor provider b.remoteID) := by
  refine ⟨?_, by decide, ?_⟩
  · intro id
    refine ⟨by simp [sanitizeID], ?_⟩
    intro i h1 h2
    constructor
    · intro hal
      simp only [List.get_eq_getElem] at hal
      simp only [sanitizeID, List.get_eq_getElem, List.getElem_map]
      rw [hal]
      simp
    · intro hal
      simp only [List.get_eq_getElem] at hal
      simp only [sanitizeID, List.get_eq_getElem, List.getElem_map]
      rw [hal]
      simp
  · intro provider name inc ids blocks hok b hb
    rw [generateBlocksForIDs_ok provider name inc ids blocks hok] at hb
    obtain ⟨id, hid, hmk⟩ := List.mem_map.mp hb
    have hidmem : id ∈ ids := List.mem_of_mem_filter hid
    constructor
    · rw [← hmk]
      exact hidmem
    · rw [← hmk]
      rfl

theorem C2_witness :
    ("my/weird id" : String) ∈ (["my/weird id"] : List String) ∧
      ("_my_weird_id" : String) = localNameFor "" "my/weird id" := by
  have h := C2_sanitization_and_remote_id.2.2 "" "dashboard" [] ["my/weird id"]
      [ { resType := "dashboard", localName := "_my_weird_id", remoteID := "my/weird id",
          providerAlias := none } ] (by decide)
      { resType := "dashboard", localName := "_my_weird_id", remoteID := "my/weird id",
        providerAlias := none } (by decide)
  exact ⟨h.1, h.2.symm⟩

/-- C3 (counterexample): the surfaced error is not the first failing
descriptor in catalog order: with both `alerts` and `dashboard` failing
and results arriving in the order `[dashboard, alerts]` (a permutation of
the catalog), the pass reports `dashboard`, not the catalog-first
`alerts`. -/
theorem C3_counterexample :
    (failCatalog.reverse).Perm failCatalog ∧
    (generateImportBlocks "" [] failCatalog failCatalog.reverse).genError =
      some (.resourceFailed "dashboard" (.listerFailed "boom-b")) ∧
    (generateImportBlocks "" [] failCatalog failCatalog.reverse).genError ≠
      some (.resourceFailed "alerts" (.listerFailed "boom-a")) :=
  ⟨List.reverse_perm failCatalog, by decide, by decide⟩

/-- C3 (amended): when some task fails, the pass still invokes every
selected lister (no fail-fast cancellation; the channel is drained only
after `wg.Wait()`), writes no imports file, and surfaces the first
failing result in channel-arrival order — not catalog order — wrapped
with the failing resource type's name. -/
theorem C3_error_after_join_in_arrival_order
    (provider : String) (inc : List String) (resources arrival filtered : List Resource)
    (hf : filterResources resources inc = .ok filtered)
    (hp : arrival.Perm filtered)
    (r : Resource) (hr : r ∈ filtered)
    (he : (runTask provider inc r).err.isSome = true) :
    (generateImportBlocks provider inc resources arrival).invokedListers =
        (filtered.filter (fun u => u.listIDs.isSome)).map (fun u => u.name) ∧
    (generateImportBlocks provider inc resources arrival).importsWritten = none ∧
    (generateImportBlocks provider inc resources arrival).planInvoked = false ∧
    ∃ pre t post e, arrival = pre ++ t :: post ∧
      (∀ u ∈ pre, (runTask provider inc u).err = none) ∧
      (runTask provider inc t).err = some e ∧
      (generateImportBlocks provider inc resources arrival).genError =
        some (.resourceFailed t.name e) := by
  have hrarr : r ∈ arrival := hp.mem_iff.mpr hr
  obtain ⟨pre, t, post, e, heq, hpre, ht, hfirst⟩ :=
    firstTaskError_first (runTask provider inc) arrival r hrarr he
  rw [runTask_resource] at hfirst
  simp only [generateImportBlocks, hf]
  rw [hfirst]
  exact ⟨rfl, rfl, rfl, pre, t, post, e, heq, hpre, ht, rfl⟩

theorem C3_witness :
    (generateImportBlocks "" [] failCatalog failCatalog).importsWritten = none :=
  (C3_error_after_join_in_arrival_order "" [] failCatalog failCatalog failCatalog
    (by decide) (List.Perm.refl _)
    { name := "alerts", listIDs := some (.error "boom-a") } (by decide) (by decide)).2.1

/-- C4 (counterexample): invalid glob syntax confined to the name part of
an inclusion pattern does not fail before listers run: with the pattern
`dashboard.[`, the `dashboard` lister is invoked (a remote call is made)
and the malformed pattern surfaces afterwards as that type's task
failure. -/
theorem C4_counterexample :
    (generateImportBlocks "" ["dashboard.["] nameGlobCatalog nameGlobCatalog).invokedListers =
      ["dashboard"] ∧
    (generateImportBlocks "" ["dashboard.["] nameGlobCatalog nameGlobCatalog).genError =
      some (.resourceFailed "dashboard" .badPattern) :=
  ⟨by decide, by decide⟩

/-- C4 (amended): a `filterResources` failure — a malformed entry, or
invalid glob syntax in the type part hit while matching — aborts the pass
before any lister is invoked; a bad type-part glob is such a failure
whenever a resource name is matched against it. -/
theorem C4_filter_errors_precede_listers :
    (∀ (provider : String) (inc : List String) (resources arrival : List Resource)
        (e : GenError),
      filterResources resources inc = .error e →
      generateImportBlocks provider inc resources arrival =
        { invokedListers := [], importsWritten := none, planInvoked := false,
          genError := some e }) ∧
    filterResources nameGlobCatalog ["[.x"] = .error .badGlobPattern := by
  refine ⟨?_, by decide⟩
  intro provider inc resources arrival e hf
  simp only [generateImportBlocks, hf]

theorem C4_witness :
    generateImportBlocks "" ["[.x"] nameGlobCatalog nameGlobCatalog =
      { invokedListers := [], importsWritten := none, planInvoked := false,
        genError := some .badGlobPattern } :=
  C4_filter_errors_precede_listers.1 "" ["[.x"] nameGlobCatalog nameGlobCatalog
    .badGlobPattern (by decide)

/-- C5: if exactly one selected resource type's lister fails while all
the others succeed, the pass reports that single failure wrapped with the
failing type's name, the imports file is not written, and the external
configuration tool is not invoked (all-or-nothing). -/
theorem C5_single_failure_all_or_nothing
    (provider : String) (inc : List String) (resources arrival filtered : List Resource)
    (hf : filterResources resources inc = .ok filtered)
    (hp : arrival.Perm filtered)
    (r : Resource) (hr : r ∈ filtered) (e : TaskErr)
    (he : (runTask provider inc r).err = some e)
    (hothers : ∀ u ∈ filtered, u ≠ r → (runTask provider inc u).err = none) :
    (generateImportBlocks provider inc resources arrival).genError =
        some (.resourceFailed r.name e) ∧
    (generateImportBlocks provider inc resources arrival).importsWritten = none ∧
    (generateImportBlocks provider inc resources arrival).planInvoked = false := by
  have hrarr : r ∈ arrival := hp.mem_iff.mpr hr
  have hall : ∀ y ∈ arrival, (runTask provider inc y).err.isSome = true →
      runTask provider inc y = runTask provider inc r := by
    intro y hy hsome
    by_cases hyr : y = r
    · rw [hyr]
    · rw [hothers y (hp.mem_iff.mp hy) hyr] at hsome
      cases hsome
  have hfirst := firstTaskError_unique (runTask provider inc) arrival r e hrarr he hall
  rw [runTask_resource] at hfirst
  simp only [generateImportBlocks, hf]
  rw [hfirst]
  exact ⟨rfl, rfl, rfl⟩

theorem C5_witness :
    (generateImportBlocks "" [] failOneCatalog failOneCatalog).genError =
      some (.resourceFailed "dashboard" (.listerFailed "boom")) :=
  (C5_single_failure_all_or_nothing "" [] failOneCatalog failOneCatalog failOneCatalog
    (by decide) (List.Perm.refl _)
    { name := "dashboard", listIDs := some (.error "boom") } (by decide)
    (.listerFailed "boom") (by decide) (by decide)).1

/-- C6: a non-empty inclusion list containing an entry without a `.`
makes the pass fail with the malformed-entry error (naming the offending
entry, whose required format is `<type>.<name>`) before any lister is
invoked; an empty inclusion list returns the catalog unchanged. -/
theorem C6_malformed_entry_and_empty_list :
    (∀ (provider : String) (inc : List String) (resources arrival : List Resource),
      inc ≠ [] → (∃ entry ∈ inc, containsDot entry = false) →
      ∃ entry, entry ∈ inc ∧ containsDot entry = false ∧
        generateImportBlocks provider inc resources arrival =
          { invokedListers := [], importsWritten := none, planInvoked := false,
            genError := some (.malformedIncluded entry) }) ∧
    (∀ resources : List Resource, filterResources resources [] = .ok resources) := by
  constructor
  · intro provider inc resources arrival hne hex
    have hfmt : ∃ entry, entry ∈ inc ∧ containsDot entry = false ∧
        checkIncludedFormat inc = .error (.malformedIncluded entry) := by
      clear hne
      induction inc with
      | nil =>
        obtain ⟨entry, hmem, -⟩ := hex
        cases hmem
      | cons a t ih =>
        by_cases ha : containsDot a = true
        · have hext : ∃ entry ∈ t, containsDot entry = false := by
            obtain ⟨entry, hmem, hdot⟩ := hex
            rcases List.mem_cons.mp hmem with rfl | hmem2
            · rw [ha] at hdot
              cases hdot
            · exact ⟨entry, hmem2, hdot⟩
          obtain ⟨entry, hmem, hdot, herr⟩ := ih hext
          refine ⟨entry, List.mem_cons_of_mem a hmem, hdot, ?_⟩
          simp only [checkIncludedFormat]
          rw [if_pos ha, herr]
        · refine ⟨a, List.mem_cons_self a t, Bool.not_eq_true _ ▸ ha, ?_⟩
          simp only [checkIncludedFormat]
          rw [if_neg ha]
    obtain ⟨entry, hmem, hdot, herr⟩ := hfmt
    have hfr : filterResources resources inc = .error (.malformedIncluded entry) := by
      simp only [filterResources]
      rw [if_neg (by simpa [List.isEmpty_iff] using hne), herr]
    refine ⟨entry, hmem, hdot, ?_⟩
    simp only [generateImportBlocks, hfr]
  · intro resources
    rfl

theorem C6_witness :
    ∃ entry, entry ∈ (["nodot"] : List String) ∧ containsDot entry = false ∧
      generateImportBlocks "" ["nodot"] demoCatalog demoCatalog =
        { invokedListers := [], importsWritten := none, planInvoked := false,
          genError := some (.malformedIncluded entry) } :=
  C6_malformed_entry_and_empty_list.1 "" ["nodot"] demoCatalog demoCatalog
    (by decide) ⟨"nodot", by decide, by decide⟩

/-- C7: with a catalog of pairwise-distinct names (the catalog is keyed
by name) whose selected listers all succeed, processing the descriptors
in reversed catalog order — under any channel-arrival orders — yields the
same written import blocks, because results are sorted by descriptor name
after the join and before emission. -/
theorem C7_reverse_order_same_output
    (provider : String) (inc : List String)
    (resources arrival1 arrival2 filtered : List Resource)
    (hf : filterResources resources inc = .ok filtered)
    (hn : (filtered.map (fun r => r.name)).Nodup)
    (hsucc : ∀ r ∈ filtered, (runTask provider inc r).err = none)
    (hp1 : arrival1.Perm filtered)
    (hp2 : arrival2.Perm filtered.reverse) :
    (generateImportBlocks provider inc resources arrival1).importsWritten =
      (generateImportBlocks provider inc resources.reverse arrival2).importsWritten ∧
    (generateImportBlocks provider inc resources arrival1).genError = none ∧
    (generateImportBlocks provider inc resources.reverse arrival2).genError = none := by
  have hf2 := filterResources_reverse resources filtered inc hf
  have hnone1 : firstTaskError (arrival1.map (runTask provider inc)) = none :=
    firstTaskError_none _ _ (fun r hr => hsucc r (hp1.mem_iff.mp hr))
  have hnone2 : firstTaskError (arrival2.map (runTask provider inc)) = none :=
    firstTaskError_none _ _
      (fun r hr => hsucc r (List.mem_reverse.mp (hp2.mem_iff.mp hr)))
  have hperm12 : arrival1.Perm arrival2 :=
    hp1.trans (hp2.trans (List.reverse_perm filtered)).symm
  have hsort : sortResults (arrival1.map (runTask provider inc)) =
      sortResults (arrival2.map (runTask provider inc)) := by
    apply sortResults_eq_of_perm
    · exact hperm12.map _
    · have hmm : (arrival1.map (runTask provider inc)).map (fun t => t.resource.name) =
          arrival1.map (fun r => r.name) := by
        rw [List.map_map]
        apply List.map_congr_left
        intro r hr
        simp [runTask_resource]
      rw [hmm]
      exact ((hp1.map (fun r => r.name)).nodup_iff).mpr hn
  simp only [generateImportBlocks, hf, hf2]
  rw [hnone1, hnone2, hsort]
  exact ⟨rfl, rfl, rfl⟩

theorem C7_witness :
    (generateImportBlocks "" [] demoCatalog demoCatalog).importsWritten =
      (generateImportBlocks "" [] demoCatalog.reverse demoCatalog.reverse).importsWritten :=
  (C7_reverse_order_same_output "" [] demoCatalog demoCatalog demoCatalog.reverse demoCatalog
    (by decide) (by decide) (by decide) (List.Perm.refl _) (List.Perm.refl _)).1

/-- C8: directory preparation in `Generate`: an existing output directory
with the clobber flag set is deleted and recreated before the rest of the
setup; an existing directory without clobber is an error before any other
work (no step is performed); a missing directory is simply created. -/
theorem C8_directory_preparation :
    generateSetup true true =
      .ok [.removeOutputDir, .createOutputDir, .writeProviderFile, .terraformInit] ∧
    generateSetup true false = .error () ∧
    generateSetup false true = .ok [.createOutputDir, .writeProviderFile, .terraformInit] ∧
    generateSetup false false = .ok [.createOutputDir, .writeProviderFile, .terraformInit] :=
  ⟨rfl, rfl, rfl, rfl⟩

/-- C9: within one resource type the emitted blocks appear in exactly the
lister's identifier order — the name-filter survivors of the returned
identifiers, mapped to blocks in place — while the post-join sort only
arranges whole per-type groups by descriptor name. -/
theorem C9_lister_order_within_type
    (provider : String) (inc : List String) (resources arrival filtered : List Resource)
    (hf : filterResources resources inc = .ok filtered)
    (hn : (filtered.map (fun r => r.name)).Nodup)
    (hsucc : ∀ r ∈ filtered, (runTask provider inc r).err = none)
    (hp : arrival.Perm filtered)
    (r : Resource) (hr : r ∈ filtered) (ids : List String)
    (hl : r.listIDs = some (.ok ids)) :
    ∃ blocks,
      (generateImportBlocks provider inc resources arrival).importsWritten = some blocks ∧
      blocks.filter (fun b => b.resType == r.name) =
        (ids.filter (keepsID provider r.name inc)).map (mkImportBlock provider r.name) := by
  have hnone : firstTaskError (arrival.map (runTask provider inc)) = none :=
    firstTaskError_none _ _ (fun u hu => hsucc u (hp.mem_iff.mp hu))
  simp only [generateImportBlocks, hf]
  rw [hnone]
  refine ⟨_, rfl, ?_⟩
  have hperm : (sortResults (arrival.map (runTask provider inc))).Perm
      (filtered.map (runTask provider inc)) :=
    (sortResults_perm _).trans (hp.map _)
  have hall : ∀ u ∈ sortResults (arrival.map (runTask provider inc)),
      ∀ b ∈ u.blocks, b.resType = u.resource.name := by
    intro u hu b hb
    obtain ⟨w, hw, hwu⟩ := List.mem_map.mp (hperm.mem_iff.mp hu)
    rw [← hwu] at hb ⊢
    rw [runTask_resource]
    exact runTask_blocks_resType provider inc w b hb
  have hpair : (sortResults (arrival.map (runTask provider inc))).Pairwise
      (fun a b => a.resource.name ≠ b.resource.name) := by
    have hmm : (filtered.map (runTask provider inc)).map (fun t => t.resource.name) =
        filtered.map (fun u => u.name) := by
      rw [List.map_map]
      apply List.map_congr_left
      intro u hu
      simp [runTask_resource]
    have hnl : ((sortResults (arrival.map (runTask provider inc))).map
        (fun t => t.resource.name)).Nodup := by
      apply ((hperm.map (fun t => t.resource.name)).nodup_iff).mpr
      rw [hmm]
      exact hn
    exact List.pairwise_map.mp hnl
  have htmem : runTask provider inc r ∈ sortResults (arrival.map (runTask provider inc)) :=
    hperm.mem_iff.mpr (List.mem_map.mpr ⟨r, hr, rfl⟩)
  have htname : (runTask provider inc r).resource.name = r.name := by
    rw [runTask_resource]
  rw [flatten_filter_single (sortResults (arrival.map (runTask provider inc))) r.name
    (runTask provider inc r) hall hpair htmem htname]
  exact runTask_blocks provider inc r ids hl (hsucc r hr)

theorem C9_witness :
    ∃ blocks,
      (generateImportBlocks "" [] demoCatalog demoCatalog).importsWritten = some blocks ∧
      blocks.filter (fun b => b.resType == "dashboard") =
        ((["abc"] : List String).filter (keepsID "" "dashboard" [])).map
          (mkImportBlock "" "dashboard") :=
  C9_lister_order_within_type "" [] demoCatalog demoCatalog demoCatalog
    (by decide) (by decide) (by decide) (List.Perm.refl _)
    { name := "dashboard", listIDs := some (.ok ["abc"]) } (by decide) ["abc"] (by decide)

/-- C10: the second-stage name filter is applied to the alias-prefixed
sanitized local name — for an alias other than `""` and `"cloud"` that is
`underscoreProvider alias ++ "_" ++ sanitizeID id` — and not to the raw
remote identifier: a block for `id` is emitted iff `id` was listed and
that cleaned name passes `filterResourceByName`; and with an empty
inclusion list `filterResourceByName` keeps every identifier. -/
theorem C10_name_filter_on_aliased_name
    (provider : String) (_hpe : provider ≠ "") (hpc : provider ≠ "cloud")
    (name : String) (inc : List String) (ids : List String) (blocks : List ImportBlock)
    (hok : generateBlocksForIDs provider name inc ids = .ok blocks) (id : String) :
    ((∃ b ∈ blocks, b.remoteID = id) ↔
      (id ∈ ids ∧
        filterResourceByName name (underscoreProvider provider ++ "_" ++ sanitizeID id) inc =
          .ok true)) ∧
    (∀ t n : String, filterResourceByName t n [] = .ok true) := by
  have hln : ∀ s : String, localNameFor provider s =
      underscoreProvider provider ++ "_" ++ sanitizeID s := by
    intro s
    unfold localNameFor
    rw [if_pos (by simpa [bne_iff_ne] using hpc)]
  constructor
  · rw [generateBlocksForIDs_ok provider name inc ids blocks hok]
    constructor
    · rintro ⟨b, hb, hid⟩
      obtain ⟨i, hi, hmk⟩ := List.mem_map.mp hb
      have hiid : i = id := by
        rw [← hmk] at hid
        exact hid
      subst hiid
      have hi2 := List.mem_filter.mp hi
      refine ⟨hi2.1, ?_⟩
      have hkeep := hi2.2
      simp only [keepsID] at hkeep
      rw [hln i] at hkeep
      match hfi : filterResourceByName name
          (underscoreProvider provider ++ "_" ++ sanitizeID i) inc with
      | .ok true => rfl
      | .ok false =>
        rw [hfi] at hkeep
        cases hkeep
      | .error e =>
        rw [hfi] at hkeep
        cases hkeep
    · rintro ⟨hmem, hfil⟩
      refine ⟨mkImportBlock provider name id, ?_, rfl⟩
      apply List.mem_map.mpr
      refine ⟨id, ?_, rfl⟩
      apply List.mem_filter.mpr
      refine ⟨hmem, ?_⟩
      simp only [keepsID]
      rw [hln id, hfil]
  · intro t n
    rfl

theorem C10_witness :
    (∃ b ∈ [mkImportBlock "stack-a" "dashboard" "abc"], b.remoteID = "abc") ↔
      (("abc" : String) ∈ (["abc"] : List String) ∧
        filterResourceByName "dashboard"
          (underscoreProvider "stack-a" ++ "_" ++ sanitizeID "abc")
          ["dashboard.stack_a_*"] = .ok true) :=
  (C10_name_filter_on_aliased_name "stack-a" (by decide) (by decide) "dashboard"
    ["dashboard.stack_a_*"] ["abc"] [mkImportBlock "stack-a" "dashboard" "abc"]
    (by decide) "abc").1

end GrafanaGen
